import Mathlib

/-!
Shallow embedding of the `whats-on` TV watchlist tracker
(`src/database.py` and `src/main.py`).

The store (`database.py`) is modelled as an explicit `DBState` record:
a list of show rows, an append-only watch-history log, the set of
dismissed recommendation slugs, and the next auto-increment id.
Timestamps (`datetime.now()` / `CURRENT_TIMESTAMP`) are passed in
explicitly as `Nat` parameters.  The two external metadata providers
(TMDB and Trakt) are passed in as oracle functions returning optional
results, mirroring how the handlers treat them as opaque lookups.
-/

/-- Row of the `shows` table (see `init_db` in `src/database.py`). -/
structure Show where
  id : Nat
  title : String
  service : String
  status : String
  current_season : Int
  current_episode : Int
  total_seasons : Option Int
  episodes_in_season : Option Int
  air_day : Option String
  priority : Int
  notes : Option String
  tmdb_id : Option Int
  poster_url : Option String
  trakt_slug : Option String
  created_at : Nat
  updated_at : Nat
deriving DecidableEq, Repr

/-- Row of the `watch_history` table. -/
structure HistoryEntry where
  show_id : Nat
  season : Int
  episode : Int
deriving DecidableEq, Repr

/-- The database state: `shows`, `watch_history`, `dismissed_recommendations`
(kept as the list of slugs) and the auto-increment counter. -/
structure DBState where
  shows : List Show
  history : List HistoryEntry
  dismissed : List String
  next_id : Nat
deriving DecidableEq, Repr

/-- `get_show` in `database.py`: `SELECT * FROM shows WHERE id = ?` (first row). -/
def get_show (st : DBState) (show_id : Nat) : Option Show :=
  st.shows.find? (fun s => s.id == show_id)

/-- `update_show` in `database.py`: patches the columns given by the caller on
every row with the given id and always stamps `updated_at` with the current
time. -/
def update_show (now : Nat) (show_id : Nat) (patch : Show → Show) (st : DBState) : DBState :=
  { st with
    shows := st.shows.map (fun s =>
      if s.id == show_id then { patch s with updated_at := now } else s) }

/-- `mark_watched` in `database.py`: inserts one `watch_history` row and sets
`current_season = season`, `current_episode = episode + 1`, `updated_at = now`
on the show row. -/
def mark_watched (show_id : Nat) (season episode : Int) (now : Nat) (st : DBState) : DBState :=
  { st with
    history := st.history ++ [{ show_id := show_id, season := season, episode := episode }],
    shows := st.shows.map (fun s =>
      if s.id == show_id then
        { s with current_season := season, current_episode := episode + 1, updated_at := now }
      else s) }

/-- `add_show` in `database.py`: inserts a row with the given fields, the
store-assigned id, and `CURRENT_TIMESTAMP` defaults for the timestamps. -/
def add_show (now : Nat) (title service : String) (current_season current_episode : Int)
    (air_day : Option String) (priority : Int) (notes : Option String) (status : String)
    (total_seasons episodes_in_season : Option Int) (tmdb_id : Option Int)
    (poster_url : Option String) (st : DBState) : DBState :=
  { st with
    shows := st.shows ++ [{
      id := st.next_id, title := title, service := service, status := status,
      current_season := current_season, current_episode := current_episode,
      total_seasons := total_seasons, episodes_in_season := episodes_in_season,
      air_day := air_day, priority := priority, notes := notes, tmdb_id := tmdb_id,
      poster_url := poster_url, trakt_slug := none, created_at := now, updated_at := now }],
    next_id := st.next_id + 1 }

/-- `dismiss_recommendation` in `database.py`: `INSERT OR IGNORE` of the slug
(unique column, so a duplicate insert is absorbed). -/
def dismiss_recommendation (slug : String) (st : DBState) : DBState :=
  if st.dismissed.contains slug then st
  else { st with dismissed := st.dismissed ++ [slug] }

/-! ## Classification (the `home` handler, `src/main.py` lines 67-75) -/

/-- First branch of the `home` loop: `show['status'] == 'hiatus'`. -/
def isHiatus (s : Show) : Bool := s.status == "hiatus"

/-- Second branch: not hiatus and `show['priority'] == 3`. -/
def isBackup (s : Show) : Bool := !isHiatus s && s.priority == 3

/-- Third branch: neither of the previous and
`show['current_episode'] != 99 and show['status'] == 'watching'`. -/
def isCatchingUp (s : Show) : Bool :=
  !isHiatus s && !(s.priority == 3) && (s.current_episode != 99 && s.status == "watching")

/-- Fallback branch: the show goes to the priority row. -/
def isPriorityRow (s : Show) : Bool :=
  !isHiatus s && !(s.priority == 3) && !(s.current_episode != 99 && s.status == "watching")

/-- The categorisation loop of the `home` handler: first-match assignment of
each show to one of (priority, backup, catching_up, between_seasons),
preserving the input order inside each bucket. -/
def classify : List Show → List Show × List Show × List Show × List Show
  | [] => ([], [], [], [])
  | s :: rest =>
    let r := classify rest
    if s.status == "hiatus" then (r.1, r.2.1, r.2.2.1, s :: r.2.2.2)
    else if s.priority == 3 then (r.1, s :: r.2.1, r.2.2.1, r.2.2.2)
    else if s.current_episode != 99 && s.status == "watching" then
      (r.1, r.2.1, s :: r.2.2.1, r.2.2.2)
    else (s :: r.1, r.2.1, r.2.2.1, r.2.2.2)

/-! ## Priority-row sorting (the `home` handler, `src/main.py` lines 77-82) -/

/-- The `day_order` dict of the `home` handler, combined with the `.get(_, 99)`
default: weekday names rank Sunday=0 .. Saturday=6, `None` maps to 99, and any
other string also falls back to 99. -/
def day_order : Option String → Nat
  | some "Sunday" => 0
  | some "Monday" => 1
  | some "Tuesday" => 2
  | some "Wednesday" => 3
  | some "Thursday" => 4
  | some "Friday" => 5
  | some "Saturday" => 6
  | none => 99
  | some _ => 99

/-- Code-point lexicographic comparison of character lists, i.e. Python's
string `<=` used implicitly by tuple comparison inside `list.sort(key=...)`. -/
def charListLe : List Char → List Char → Bool
  | [], _ => true
  | _ :: _, [] => false
  | a :: as, b :: bs => if a < b then true else if b < a then false else charListLe as bs

/-- Python string comparison on the underlying character sequences. -/
def strLe (a b : String) : Bool := charListLe a.data b.data

/-- The composite sort key of `priority_shows.sort(key=lambda x: (day_order.get(
x.get('air_day'), 99), x.get('title', '')))`. -/
def sortKey (s : Show) : Nat × String := (day_order s.air_day, s.title)

/-- Comparison of two shows by the composite key (Python tuple `<=`). -/
def keyLe (a b : Show) : Bool :=
  decide (day_order a.air_day < day_order b.air_day) ||
  (day_order a.air_day == day_order b.air_day && strLe a.title b.title)

/-- Insertion step of a stable sort by `keyLe`. -/
def insertShow (a : Show) : List Show → List Show
  | [] => [a]
  | b :: bs => if keyLe a b then a :: b :: bs else b :: insertShow a bs

/-- `priority_shows.sort(key=...)`: Python's `list.sort` is a stable sort by
the given key, computed here as a stable insertion sort by `keyLe` (the stable
sorted permutation of a list is unique, so any stable sorting algorithm
computes this function). -/
def sortPriority : List Show → List Show
  | [] => []
  | a :: as => insertShow a (sortPriority as)

/-- Membership test for an exact sort key, used to state stability. -/
def keyEq (k : Nat × String) (s : Show) : Bool := sortKey s == k

/-- The full `home` view: classify, then sort only the priority row. -/
def home (shows : List Show) : List Show × List Show × List Show × List Show :=
  let r := classify shows
  (sortPriority r.1, r.2.1, r.2.2.1, r.2.2.2)

/-- Test fixture: a show row with the given id, title, air day, priority,
status and position, and defaults for the remaining columns. -/
def mkShow (i : Nat) (title : String) (day : Option String) (prio : Int)
    (status : String) (season episode : Int) : Show :=
  { id := i, title := title, service := "Max", status := status,
    current_season := season, current_episode := episode, total_seasons := none,
    episodes_in_season := none, air_day := day, priority := prio, notes := none,
    tmdb_id := none, poster_url := none, trakt_slug := none,
    created_at := 0, updated_at := 0 }

/-! ## Per-show endpoints (`src/main.py`) -/

/-- Outcome visible to an HTTP caller: a JSON payload, a 303 redirect to the
list view, or a raised 404. -/
inductive ApiResult where
  | ok : ApiResult
  | redirect : ApiResult
  | notFound : ApiResult
deriving DecidableEq, Repr

/-- `api_get_show` (`GET /api/shows/{id}`): raises 404 when the id is absent. -/
def api_get_show (st : DBState) (show_id : Nat) : ApiResult :=
  match get_show st show_id with
  | none => ApiResult.notFound
  | some _ => ApiResult.ok

/-- The `next_episode` form handler (`POST /next-episode/{id}`): when the show
exists, computes `current_episode + 1 if current_episode != 99 else 2` and
patches `current_episode` and `status='watching'`; always redirects,
even when the id is absent. -/
def next_episode (show_id : Nat) (now : Nat) (st : DBState) : DBState × ApiResult :=
  match get_show st show_id with
  | none => (st, ApiResult.redirect)
  | some sh =>
    (update_show now show_id (fun s =>
      { s with
        current_episode := if sh.current_episode != 99 then sh.current_episode + 1 else 2,
        status := "watching" }) st,
     ApiResult.redirect)

/-- The `mark_active` form handler (`POST /mark-active/{id}`, "start new
season"): when the show exists, patches `current_season + 1`,
`current_episode = 1`, `status='watching'`; always redirects. -/
def mark_active (show_id : Nat) (now : Nat) (st : DBState) : DBState × ApiResult :=
  match get_show st show_id with
  | none => (st, ApiResult.redirect)
  | some sh =>
    (update_show now show_id (fun s =>
      { s with
        current_season := sh.current_season + 1,
        current_episode := 1,
        status := "watching" }) st,
     ApiResult.redirect)

/-- The `mark_caught_up` handler (`POST /mark-caught-up/{id}` and
`POST /api/shows/{id}/caught-up`): `update_show(id, current_episode=99,
status='current')`. -/
def mark_caught_up (show_id : Nat) (now : Nat) (st : DBState) : DBState :=
  update_show now show_id (fun s => { s with current_episode := 99, status := "current" }) st

/-- Test fixture: a one-show database. -/
def sampleDB : DBState :=
  { shows := [mkShow 1 "Annika" (some "Monday") 1 "watching" 1 2],
    history := [], dismissed := [], next_id := 2 }

/-- Test fixture: an empty database. -/
def emptyDB : DBState := { shows := [], history := [], dismissed := [], next_id := 1 }

/-! ## Trakt enrichment (`src/main.py` lines 325-373) -/

/-- Python truthiness of an optional string: `None` and the empty string are
falsy, any other string is truthy. -/
def truthyStr : Option String → Bool
  | none => false
  | some d => !(d == "")

/-- The part of a `search_trakt` result the merge logic reads. -/
structure TraktInfo where
  trakt_slug : Option String
deriving DecidableEq, Repr

/-- The part of a `get_trakt_show_details` result the merge logic reads. -/
structure TraktDetails where
  air_day : Option String
deriving DecidableEq, Repr

/-- `fetch_trakt_for_show` (`POST /api/shows/{id}/fetch-trakt`): search Trakt
by title, fetch details by slug, then `update_show` with `trakt_slug` always
and `air_day` whenever the fetched air day is truthy - with no check of the
show's existing `air_day`.  Any failed step leaves the store untouched. -/
def fetch_trakt_for_show (now : Nat)
    (search_trakt : String → Option TraktInfo)
    (trakt_details : String → Option TraktDetails)
    (show_id : Nat) (st : DBState) : DBState :=
  match get_show st show_id with
  | none => st
  | some sh =>
    match search_trakt sh.title with
    | none => st
    | some info =>
      match info.trakt_slug with
      | none => st
      | some slug =>
        if slug == "" then st
        else
          match trakt_details slug with
          | none => st
          | some details =>
            if truthyStr details.air_day then
              update_show now show_id (fun s =>
                { s with trakt_slug := some slug, air_day := details.air_day }) st
            else
              update_show now show_id (fun s => { s with trakt_slug := some slug }) st

/-- One iteration of the `fetch_all_trakt` loop for the snapshot row `sh`:
skipped entirely when the snapshot already has a truthy `air_day`, otherwise
the same provider chain as the per-show fetch, updating only when the fetched
air day is truthy. -/
def fetch_all_step (now : Nat) (search_trakt : String → Option TraktInfo)
    (trakt_details : String → Option TraktDetails) (sh : Show) (st : DBState) : DBState :=
  if truthyStr sh.air_day then st
  else
    match search_trakt sh.title with
    | none => st
    | some info =>
      match info.trakt_slug with
      | none => st
      | some slug =>
        if slug == "" then st
        else
          match trakt_details slug with
          | none => st
          | some details =>
            if truthyStr details.air_day then
              update_show now sh.id (fun s =>
                { s with trakt_slug := some slug, air_day := details.air_day }) st
            else st

/-- The `fetch_all_trakt` loop over a snapshot list of rows. -/
def fetch_all_go (now : Nat) (search_trakt : String → Option TraktInfo)
    (trakt_details : String → Option TraktDetails) : List Show → DBState → DBState
  | [], st => st
  | sh :: rest, st =>
    fetch_all_go now search_trakt trakt_details rest
      (fetch_all_step now search_trakt trakt_details sh st)

/-- `get_all_shows` in `database.py`: `SELECT * FROM shows WHERE status !=
'dropped' ORDER BY priority ASC, air_day ASC, title ASC`.  The `WHERE` filter
is modelled; the `ORDER BY` is not, because every consumer proved about here
either receives this list as an explicit snapshot whose order is universally
quantified, or (the bulk-refresh loop) updates each row by its unique primary
key from snapshot values only, so its store effect is iteration-order
independent. -/
def get_all_shows (st : DBState) : List Show :=
  st.shows.filter (fun s => !(s.status == "dropped"))

/-- `fetch_all_trakt` (`POST /api/fetch-all-trakt`): iterate the
`get_all_shows()` snapshot (non-dropped rows), enriching only those whose
snapshot `air_day` is unset. -/
def fetch_all_trakt (now : Nat) (search_trakt : String → Option TraktInfo)
    (trakt_details : String → Option TraktDetails) (st : DBState) : DBState :=
  fetch_all_go now search_trakt trakt_details (get_all_shows st) st

/-- Test fixture: a Trakt search oracle that always finds the slug `annika`. -/
def oracleSearch : String → Option TraktInfo := fun _ => some { trakt_slug := some "annika" }

/-- Test fixture: a Trakt details oracle that always reports a Thursday air day. -/
def oracleDetails : String → Option TraktDetails := fun _ => some { air_day := some "Thursday" }

/-! ## Recommendations (`src/main.py` lines 375-478) -/

/-- A candidate row from the Trakt popular-shows response: the fields the
filter reads. -/
structure Candidate where
  title : String
  trakt_slug : Option String
deriving DecidableEq, Repr

/-- Python's `str.lower()` on the underlying character sequence. -/
def str_lower (s : String) : String := String.mk (s.data.map Char.toLower)

/-- `current_titles = {s['title'].lower() for s in shows}`. -/
def current_titles (shows : List Show) : List String :=
  shows.map (fun s => str_lower s.title)

/-- `slug in dismissed_slugs` where the candidate slug may be missing
(`None` is never a member of the set of stored slugs). -/
def slug_dismissed : Option String → List String → Bool
  | none, _ => false
  | some s, slugs => slugs.contains s

/-- The filter condition of the recommendations loop:
`title.lower() not in current_titles and slug not in dismissed_slugs`. -/
def rec_eligible (titles slugs : List String) (c : Candidate) : Bool :=
  !(titles.contains (str_lower c.title)) && !(slug_dismissed c.trakt_slug slugs)

/-- The accumulation loop of `get_recommendations`: append each eligible
candidate in provider order, stopping as soon as 6 are collected. -/
def rec_loop (titles slugs : List String) : List Candidate → List Candidate → List Candidate
  | [], acc => acc
  | c :: rest, acc =>
    if rec_eligible titles slugs c then
      if (acc ++ [c]).length ≥ 6 then acc ++ [c]
      else rec_loop titles slugs rest (acc ++ [c])
    else rec_loop titles slugs rest acc

/-- The filtering stage of the `get_recommendations` handler, given the
current shows, the dismissed slugs and the provider's popular list. -/
def get_recommendations (shows : List Show) (dismissed : List String)
    (popular : List Candidate) : List Candidate :=
  rec_loop (current_titles shows) dismissed popular []

/-- The `add_recommendation` handler (`POST /api/recommendations/add`):
add the show (season 1, episode 1, status watching, with the fetched poster
and air day), then dismiss its slug. -/
def add_recommendation (now : Nat) (title slug service : String) (priority : Int)
    (poster_url : Option String) (fetched_air_day : Option String) (st : DBState) : DBState :=
  dismiss_recommendation slug
    (add_show now title service 1 1 fetched_air_day priority none "watching"
      none none none poster_url st)

/-! ## Lemmas and claim theorems -/

theorem classify_eq_filter (l : List Show) :
    classify l =
      (l.filter isPriorityRow, l.filter isBackup, l.filter isCatchingUp, l.filter isHiatus) := by
  induction l with
  | nil => rfl
  | cons s rest ih =>
    simp only [classify, ih, List.filter_cons]
    by_cases h1 : s.status == "hiatus" <;>
      by_cases h2 : s.priority == 3 <;>
        by_cases h3 : (s.current_episode != 99 && s.status == "watching") <;>
          simp [isHiatus, isBackup, isCatchingUp, isPriorityRow, h1, h2, h3]

theorem count_filter_of_pos {α : Type} [DecidableEq α] {p : α → Bool} {x : α}
    (h : p x = true) (l : List α) : List.count x (l.filter p) = List.count x l := by
  induction l with
  | nil => rfl
  | cons a rest ih =>
    by_cases ha : a = x
    · subst ha; simp [List.filter_cons, h, List.count_cons, ih]
    · by_cases hp : p a <;> simp [List.filter_cons, hp, List.count_cons, ih, ha]

theorem count_filter_of_neg {α : Type} [DecidableEq α] {p : α → Bool} {x : α}
    (h : p x = false) (l : List α) : List.count x (l.filter p) = 0 := by
  rw [List.count_eq_zero]
  intro hm
  have := (List.mem_filter.mp hm).2
  rw [h] at this
  exact Bool.false_ne_true this

theorem count_filter_ite {α : Type} [DecidableEq α] (p : α → Bool) (x : α) (l : List α) :
    List.count x (l.filter p) = if p x then List.count x l else 0 := by
  cases hp : p x
  · simp [count_filter_of_neg hp]
  · simp [count_filter_of_pos hp]

theorem classify_perm (l : List Show) :
    ((classify l).1 ++ (classify l).2.1 ++ (classify l).2.2.1 ++ (classify l).2.2.2).Perm l := by
  rw [List.perm_iff_count]
  intro x
  simp only [classify_eq_filter, List.count_append, count_filter_ite]
  by_cases h1 : x.status == "hiatus" <;>
    by_cases h2 : x.priority == 3 <;>
      by_cases h3 : (x.current_episode != 99 && x.status == "watching") <;>
        simp [isHiatus, isBackup, isCatchingUp, isPriorityRow, h1, h2, h3]

/-- Claim C1: the `home` view assigns each non-dropped show to exactly one of the
four buckets by first-match precedence (status 'hiatus' first, regardless of
priority or episode; then priority 3 to backup; then current_episode ≠ 99 and
status 'watching' to catching-up; everything else to the priority row), and
the four buckets together are a lossless partition of the input list. -/
theorem classify_partitions (shows : List Show) :
    ((classify shows).1 ++ (classify shows).2.1 ++ (classify shows).2.2.1 ++
        (classify shows).2.2.2).Perm shows ∧
    ∀ s ∈ shows,
      (s ∈ (classify shows).2.2.2 ↔ s.status = "hiatus") ∧
      (s ∈ (classify shows).2.1 ↔ s.status ≠ "hiatus" ∧ s.priority = 3) ∧
      (s ∈ (classify shows).2.2.1 ↔
        s.status ≠ "hiatus" ∧ s.priority ≠ 3 ∧ s.current_episode ≠ 99 ∧ s.status = "watching") ∧
      (s ∈ (classify shows).1 ↔
        s.status ≠ "hiatus" ∧ s.priority ≠ 3 ∧
          ¬(s.current_episode ≠ 99 ∧ s.status = "watching")) := by
  refine ⟨classify_perm shows, fun s hs => ?_⟩
  simp only [classify_eq_filter, List.mem_filter, hs, true_and]
  refine ⟨by simp [isHiatus], by simp [isBackup, isHiatus, and_assoc], ?_, ?_⟩
  · simp [isCatchingUp, isHiatus, and_assoc]
  · simp only [isPriorityRow, isHiatus, Bool.and_eq_true, Bool.not_eq_true', beq_eq_false_iff_ne,
      ne_eq, bne_iff_ne, beq_iff_eq]
    constructor
    · rintro ⟨⟨hh, hp⟩, hw⟩
      refine ⟨hh, hp, ?_⟩
      intro ⟨hce, hst⟩
      rw [Bool.and_eq_false_iff] at hw
      rcases hw with hw | hw
      · simp [bne_iff_ne] at hw; exact hce hw
      · simp at hw; exact hw hst
    · rintro ⟨hh, hp, hw⟩
      refine ⟨⟨hh, hp⟩, ?_⟩
      rw [Bool.and_eq_false_iff]
      by_cases hce : s.current_episode = 99
      · left; simp [bne_iff_ne, hce]
      · right; simp; intro hst; exact hw ⟨hce, hst⟩

theorem charListLe_cons (a b : Char) (as bs : List Char) :
    charListLe (a :: as) (b :: bs) = true ↔ a < b ∨ (a = b ∧ charListLe as bs = true) := by
  simp only [charListLe]
  by_cases h1 : a < b
  · simp [h1]
  · by_cases h2 : b < a
    · rw [if_neg h1, if_pos h2]
      constructor
      · intro h; exact absurd h Bool.false_ne_true
      · rintro (h | ⟨rfl, _⟩)
        · exact absurd h h1
        · exact absurd h2 (lt_irrefl a)
    · have heq : a = b := le_antisymm (not_lt.mp h2) (not_lt.mp h1)
      simp [h1, h2, heq]

theorem charListLe_refl (l : List Char) : charListLe l l = true := by
  induction l with
  | nil => rfl
  | cons a as ih => simp [charListLe_cons, ih]

theorem charListLe_total (xs : List Char) : ∀ ys, charListLe xs ys = true ∨ charListLe ys xs = true := by
  induction xs with
  | nil => intro ys; left; rfl
  | cons a as ih =>
    intro ys
    cases ys with
    | nil => right; rfl
    | cons b bs =>
      rcases lt_trichotomy a b with h | h | h
      · left; rw [charListLe_cons]; exact Or.inl h
      · rcases ih bs with hr | hr
        · left; rw [charListLe_cons]; exact Or.inr ⟨h, hr⟩
        · right; rw [charListLe_cons]; exact Or.inr ⟨h.symm, hr⟩
      · right; rw [charListLe_cons]; exact Or.inl h

theorem charListLe_trans (xs : List Char) :
    ∀ ys zs, charListLe xs ys = true → charListLe ys zs = true → charListLe xs zs = true := by
  induction xs with
  | nil => intro ys zs _ _; rfl
  | cons a as ih =>
    intro ys zs hxy hyz
    cases ys with
    | nil => exact absurd hxy Bool.false_ne_true
    | cons b bs =>
      cases zs with
      | nil => exact absurd hyz Bool.false_ne_true
      | cons c cs =>
        rw [charListLe_cons] at hxy hyz ⊢
        rcases hxy with h1 | ⟨rfl, h1⟩
        · rcases hyz with h2 | ⟨rfl, h2⟩
          · exact Or.inl (h1.trans h2)
          · exact Or.inl h1
        · rcases hyz with h2 | ⟨rfl, h2⟩
          · exact Or.inl h2
          · exact Or.inr ⟨rfl, ih bs cs h1 h2⟩

theorem charListLe_antisymm (xs : List Char) :
    ∀ ys, charListLe xs ys = true → charListLe ys xs = true → xs = ys := by
  induction xs with
  | nil =>
    intro ys _ hyx
    cases ys with
    | nil => rfl
    | cons b bs => exact absurd hyx Bool.false_ne_true
  | cons a as ih =>
    intro ys hxy hyx
    cases ys with
    | nil => exact absurd hxy Bool.false_ne_true
    | cons b bs =>
      rw [charListLe_cons] at hxy hyx
      rcases hxy with h1 | ⟨rfl, h1⟩
      · rcases hyx with h2 | ⟨heq, _⟩
        · exact absurd (h1.trans h2) (lt_irrefl a)
        · exact absurd (heq ▸ h1) (lt_irrefl a)
      · rcases hyx with h2 | ⟨_, h2⟩
        · exact absurd h2 (lt_irrefl a)
        · rw [ih bs h1 h2]

theorem keyLe_iff (a b : Show) :
    keyLe a b = true ↔
      day_order a.air_day < day_order b.air_day ∨
        (day_order a.air_day = day_order b.air_day ∧
          charListLe a.title.data b.title.data = true) := by
  simp [keyLe, strLe, Bool.or_eq_true, Bool.and_eq_true, decide_eq_true_iff]

theorem keyLe_total (a b : Show) : keyLe a b = true ∨ keyLe b a = true := by
  rw [keyLe_iff, keyLe_iff]
  rcases lt_trichotomy (day_order a.air_day) (day_order b.air_day) with h | h | h
  · exact Or.inl (Or.inl h)
  · rcases charListLe_total a.title.data b.title.data with ht | ht
    · exact Or.inl (Or.inr ⟨h, ht⟩)
    · exact Or.inr (Or.inr ⟨h.symm, ht⟩)
  · exact Or.inr (Or.inl h)

theorem keyLe_trans (a b c : Show) :
    keyLe a b = true → keyLe b c = true → keyLe a c = true := by
  rw [keyLe_iff, keyLe_iff, keyLe_iff]
  rintro (h1 | ⟨h1, h1t⟩) (h2 | ⟨h2, h2t⟩)
  · exact Or.inl (h1.trans h2)
  · exact Or.inl (h2 ▸ h1)
  · exact Or.inl (h1 ▸ h2)
  · exact Or.inr ⟨h1.trans h2, charListLe_trans _ _ _ h1t h2t⟩

theorem keyLe_of_sortKey_eq {a b : Show} (h : sortKey a = sortKey b) : keyLe a b = true := by
  have hd : day_order a.air_day = day_order b.air_day := congrArg Prod.fst h
  have ht : a.title = b.title := congrArg Prod.snd h
  rw [keyLe_iff]
  exact Or.inr ⟨hd, ht ▸ charListLe_refl a.title.data⟩

theorem sortKey_eq_of_keyLe {a b : Show} (hab : keyLe a b = true) (hba : keyLe b a = true) :
    sortKey a = sortKey b := by
  rw [keyLe_iff] at hab hba
  rcases hab with h1 | ⟨h1, h1t⟩
  · rcases hba with h2 | ⟨h2, _⟩
    · exact absurd (h1.trans h2) (lt_irrefl _)
    · exact absurd (h2 ▸ h1) (lt_irrefl _)
  · rcases hba with h2 | ⟨_, h2t⟩
    · exact absurd (h1 ▸ h2) (lt_irrefl _)
    · have hdata : a.title.data = b.title.data := charListLe_antisymm _ _ h1t h2t
      have ht : a.title = b.title := congrArg String.mk hdata
      simp [sortKey, h1, ht]

theorem insertShow_perm (a : Show) (l : List Show) : (insertShow a l).Perm (a :: l) := by
  induction l with
  | nil => exact List.Perm.refl _
  | cons b bs ih =>
    simp only [insertShow]
    by_cases h : keyLe a b
    · simp [h]
    · simp only [h, if_false, Bool.false_eq_true, ite_false]
      exact (ih.cons b).trans (List.Perm.swap a b bs)

theorem sortPriority_perm (l : List Show) : (sortPriority l).Perm l := by
  induction l with
  | nil => exact List.Perm.refl _
  | cons a as ih => exact (insertShow_perm a (sortPriority as)).trans (ih.cons a)

theorem insertShow_pairwise (a : Show) (l : List Show)
    (hl : l.Pairwise (fun x y => keyLe x y = true)) :
    (insertShow a l).Pairwise (fun x y => keyLe x y = true) := by
  induction l with
  | nil => simp [insertShow]
  | cons b bs ih =>
    simp only [insertShow]
    by_cases h : keyLe a b
    · simp only [h, if_true, ite_true]
      refine List.Pairwise.cons ?_ hl
      intro x hx
      rcases List.mem_cons.mp hx with hxe | hx'
      · rw [hxe]; exact h
      · exact keyLe_trans a b x h (List.rel_of_pairwise_cons hl hx')
    · simp only [h, if_false, Bool.false_eq_true, ite_false]
      refine List.Pairwise.cons ?_ (ih hl.tail)
      intro x hx
      rcases List.mem_cons.mp ((insertShow_perm a bs).mem_iff.mp hx) with hxe | hx'
      · rw [hxe]
        rcases keyLe_total a b with h' | h'
        · exact absurd h' h
        · exact h'
      · exact List.rel_of_pairwise_cons hl hx'

theorem sortPriority_pairwise (l : List Show) :
    (sortPriority l).Pairwise (fun x y => keyLe x y = true) := by
  induction l with
  | nil => exact List.Pairwise.nil
  | cons a as ih => exact insertShow_pairwise a (sortPriority as) ih

theorem filter_insertShow_keyEq (k : Nat × String) (a : Show) (l : List Show) :
    (insertShow a l).filter (keyEq k) =
      if keyEq k a then a :: l.filter (keyEq k) else l.filter (keyEq k) := by
  induction l with
  | nil => simp [insertShow, List.filter_cons]
  | cons b bs ih =>
    simp only [insertShow]
    by_cases h : keyLe a b
    · simp only [h, if_true, ite_true]
      simp [List.filter_cons]
    · have hnot : ¬(keyEq k a = true ∧ keyEq k b = true) := by
        rintro ⟨ha, hb⟩
        have hka : sortKey a = k := by simpa [keyEq] using ha
        have hkb : sortKey b = k := by simpa [keyEq] using hb
        exact h (keyLe_of_sortKey_eq (hka.trans hkb.symm))
      simp only [h, if_false, Bool.false_eq_true, ite_false, List.filter_cons]
      by_cases ha : keyEq k a
      · by_cases hb : keyEq k b
        · exact absurd ⟨ha, hb⟩ hnot
        · simp [ha, hb, ih]
      · by_cases hb : keyEq k b <;> simp [ha, hb, ih]

theorem sortPriority_stable (k : Nat × String) (l : List Show) :
    (sortPriority l).filter (keyEq k) = l.filter (keyEq k) := by
  induction l with
  | nil => rfl
  | cons a as ih =>
    simp only [sortPriority, filter_insertShow_keyEq, ih, List.filter_cons]

/-- Claim C5: the priority row of the `home` view is the stable sort of the
priority bucket by the composite key (weekday rank of `air_day`, Sunday=0 ..
Saturday=6, unscheduled 99; then title, case-sensitive): the output is a
permutation of the bucket, sorted by `keyLe`, and shows with an identical key
keep their relative store order; a show airing Monday titled "Z" sorts before
an unscheduled show titled "A"; the backup, catching-up and hiatus buckets are
not sorted by this rule and keep store iteration order (they are exactly the
order-preserving filters of the store list). -/
theorem sortPriority_spec (shows : List Show) (k : Nat × String) :
    (sortPriority shows).Perm shows ∧
    (sortPriority shows).Pairwise (fun a b => keyLe a b = true) ∧
    (sortPriority shows).filter (keyEq k) = shows.filter (keyEq k) ∧
    (home shows).1 = sortPriority (shows.filter isPriorityRow) ∧
    (home shows).2.1 = shows.filter isBackup ∧
    (home shows).2.2.1 = shows.filter isCatchingUp ∧
    (home shows).2.2.2 = shows.filter isHiatus ∧
    sortPriority
        [mkShow 1 "Z" (some "Monday") 2 "current" 1 99, mkShow 2 "A" none 2 "current" 1 99]
      = [mkShow 1 "Z" (some "Monday") 2 "current" 1 99, mkShow 2 "A" none 2 "current" 1 99] ∧
    sortPriority
        [mkShow 2 "A" none 2 "current" 1 99, mkShow 1 "Z" (some "Monday") 2 "current" 1 99]
      = [mkShow 1 "Z" (some "Monday") 2 "current" 1 99, mkShow 2 "A" none 2 "current" 1 99] := by
  refine ⟨sortPriority_perm shows, sortPriority_pairwise shows, sortPriority_stable k shows,
    ?_, ?_, ?_, ?_, by decide, by decide⟩ <;> simp [home, classify_eq_filter]

/-! ## Helper lemmas about `get_show` and `update_show` -/

theorem map_congr_mem {α β : Type} (f g : α → β) (l : List α)
    (h : ∀ a ∈ l, f a = g a) : l.map f = l.map g := by
  induction l with
  | nil => rfl
  | cons a rest ih =>
    simp only [List.map_cons, h a (List.mem_cons_self a rest)]
    rw [ih (fun x hx => h x (List.mem_cons_of_mem a hx))]

theorem forall₂_map_self {α β : Type} (R : α → β → Prop) (f : α → β) (l : List α)
    (h : ∀ a ∈ l, R a (f a)) : List.Forall₂ R l (l.map f) := by
  induction l with
  | nil => exact List.Forall₂.nil
  | cons a rest ih =>
    exact List.Forall₂.cons (h a (List.mem_cons_self a rest))
      (ih (fun x hx => h x (List.mem_cons_of_mem a hx)))

theorem find?_id_map (f : Show → Show) (hf : ∀ s, (f s).id = s.id) (i : Nat) (l : List Show) :
    (l.map f).find? (fun s => s.id == i) = (l.find? (fun s => s.id == i)).map f := by
  have hp : (fun s : Show => s.id == i) ∘ f = (fun s : Show => s.id == i) := by
    funext s
    simp [Function.comp, hf]
  rw [List.find?_map, hp]

theorem get_show_update (now : Nat) (j : Nat) (patch : Show → Show)
    (hp : ∀ s, (patch s).id = s.id) (st : DBState) (i : Nat) :
    get_show (update_show now j patch st) i =
      (get_show st i).map
        (fun s => if s.id == j then { patch s with updated_at := now } else s) := by
  unfold get_show update_show
  exact find?_id_map _ (fun s => by by_cases h : s.id == j <;> simp [h, hp]) i st.shows

theorem get_show_update_ne (now : Nat) (j : Nat) (patch : Show → Show)
    (hp : ∀ s, (patch s).id = s.id) (st : DBState) (i : Nat) (hij : i ≠ j) :
    get_show (update_show now j patch st) i = get_show st i := by
  rw [get_show_update now j patch hp st i]
  unfold get_show
  cases hfind : st.shows.find? (fun s => s.id == i) with
  | none => rfl
  | some s =>
    have hsi : s.id = i := by simpa using List.find?_some hfind
    simp [Option.map, hsi, hij]

theorem get_show_update_self (now : Nat) (j : Nat) (patch : Show → Show)
    (hp : ∀ s, (patch s).id = s.id) (st : DBState) :
    get_show (update_show now j patch st) j =
      (get_show st j).map (fun s => { patch s with updated_at := now }) := by
  rw [get_show_update now j patch hp st j]
  unfold get_show
  cases hfind : st.shows.find? (fun s => s.id == j) with
  | none => rfl
  | some s =>
    have hsi : (s.id == j) = true := by simpa using List.find?_some hfind
    simp [Option.map, hsi]

theorem find?_id_of_mem_nodup {l : List Show} {sh : Show}
    (hnd : (l.map Show.id).Nodup) (hm : sh ∈ l) :
    l.find? (fun s => s.id == sh.id) = some sh := by
  induction l with
  | nil => cases hm
  | cons a rest ih =>
    rw [List.map_cons] at hnd
    rcases List.nodup_cons.mp hnd with ⟨hna, hnrest⟩
    rcases List.mem_cons.mp hm with hae | hmem
    · rw [hae, List.find?_cons_of_pos _ (by simp)]
    · have hne : (a.id == sh.id) = false := by
        simp only [beq_eq_false_iff_ne, ne_eq]
        intro he
        exact hna (he ▸ List.mem_map_of_mem Show.id hmem)
      rw [List.find?_cons_of_neg _ (by simp [hne])]
      exact ih hnrest hmem

theorem get_show_of_mem_nodup {st : DBState} {sh : Show}
    (hnd : (st.shows.map Show.id).Nodup) (hm : sh ∈ st.shows) :
    get_show st sh.id = some sh :=
  find?_id_of_mem_nodup hnd hm

/-- Claim C3: for season ≥ 1 and episode ≥ 1, `mark_watched` appends exactly
one watch-history row `(show_id, season, episode)` and sets the show's
`current_season` to the season and `current_episode` to episode+1 (no clamping
against `episodes_in_season`, no automatic season rollover); calling it twice
with identical arguments appends two history rows but leaves the same final
show state as a single call. -/
theorem mark_watched_spec (st : DBState) (id2 : Nat) (s e : Int) (t1 t2 : Nat)
    (hs : 1 ≤ s) (he : 1 ≤ e) :
    (mark_watched id2 s e t1 st).history =
      st.history ++ [{ show_id := id2, season := s, episode := e }] ∧
    (∀ sh ∈ st.shows, sh.id = id2 →
      { sh with current_season := s, current_episode := e + 1, updated_at := t1 }
        ∈ (mark_watched id2 s e t1 st).shows) ∧
    (mark_watched id2 s e t2 (mark_watched id2 s e t1 st)).history =
      st.history ++ [{ show_id := id2, season := s, episode := e },
        { show_id := id2, season := s, episode := e }] ∧
    (mark_watched id2 s e t2 (mark_watched id2 s e t1 st)).shows =
      (mark_watched id2 s e t2 st).shows := by
  refine ⟨rfl, ?_, ?_, ?_⟩
  · intro sh hm hid
    have hbeq : (sh.id == id2) = true := by simp [hid]
    simp only [mark_watched]
    refine List.mem_map.mpr ⟨sh, hm, ?_⟩
    rw [if_pos hbeq]
  · simp [mark_watched]
  · simp only [mark_watched, List.map_map]
    apply map_congr_mem
    intro a _
    rcases a with ⟨i, ti, sv, stt, cs, ce, ts, eis, ad, pr, nt, tm, pu, sl, ca, ua⟩
    by_cases h : (i == id2) <;> simp [Function.comp, h]

/-- Claim C3 witness at a concrete input. -/
theorem mark_watched_spec_witness :
    (mark_watched 1 2 3 10 sampleDB).history =
      sampleDB.history ++ [{ show_id := 1, season := 2, episode := 3 }] :=
  (mark_watched_spec sampleDB 1 2 3 10 11 (by decide) (by decide)).1

/-- Claim C9: `mark_watched` touches only `current_season`, `current_episode`
and `updated_at` on the show rows: every other column - in particular
`status`, `priority`, `air_day`, `title`, `notes` and `poster_url` - is
unchanged, row by row (so marking an episode watched never changes a show's
status). -/
theorem mark_watched_frame (id2 : Nat) (s e : Int) (t : Nat) (st : DBState) :
    List.Forall₂ (fun a b =>
      b.id = a.id ∧ b.title = a.title ∧ b.service = a.service ∧ b.status = a.status ∧
      b.total_seasons = a.total_seasons ∧ b.episodes_in_season = a.episodes_in_season ∧
      b.air_day = a.air_day ∧ b.priority = a.priority ∧ b.notes = a.notes ∧
      b.tmdb_id = a.tmdb_id ∧ b.poster_url = a.poster_url ∧ b.trakt_slug = a.trakt_slug ∧
      b.created_at = a.created_at)
      st.shows (mark_watched id2 s e t st).shows := by
  simp only [mark_watched]
  apply forall₂_map_self
  intro a _
  by_cases h : (a.id == id2) <;> simp [h]

/-- Claim C4: the next-episode advance on an existing show stores
`current_episode = 2` when the show was at the caught-up sentinel 99, and
`current_episode + 1` otherwise, and sets `status = 'watching'`. -/
theorem next_episode_spec (st : DBState) (id2 now : Nat) (sh : Show)
    (hfind : get_show st id2 = some sh) :
    ∃ sh', get_show (next_episode id2 now st).1 id2 = some sh' ∧
      sh'.current_episode = (if sh.current_episode = 99 then 2 else sh.current_episode + 1) ∧
      sh'.status = "watching" := by
  have hstep : (next_episode id2 now st).1 = update_show now id2 (fun s =>
      { s with
        current_episode := if sh.current_episode != 99 then sh.current_episode + 1 else 2,
        status := "watching" }) st := by
    unfold next_episode
    rw [hfind]
  rw [hstep, get_show_update_self now id2 (fun s =>
      { s with
        current_episode := if sh.current_episode != 99 then sh.current_episode + 1 else 2,
        status := "watching" }) (fun s => rfl) st, hfind]
  refine ⟨_, rfl, ?_, rfl⟩
  by_cases h : sh.current_episode = 99 <;> simp [h]

/-- Claim C4 witness at a concrete input. -/
theorem next_episode_spec_witness :
    ∃ sh', get_show (next_episode 1 6 sampleDB).1 1 = some sh' ∧
      sh'.current_episode =
        (if (mkShow 1 "Annika" (some "Monday") 1 "watching" 1 2).current_episode = 99 then 2
         else (mkShow 1 "Annika" (some "Monday") 1 "watching" 1 2).current_episode + 1) ∧
      sh'.status = "watching" :=
  next_episode_spec sampleDB 1 6 (mkShow 1 "Annika" (some "Monday") 1 "watching" 1 2) (by decide)

/-- Claim C7: `mark_caught_up` sets `current_episode = 99` and
`status = 'current'` on the targeted show, and is idempotent: a second
application leaves exactly the state a single application (with the final
call's `updated_at` stamp) produces; with equal timestamps the two states are
literally identical. -/
theorem mark_caught_up_spec (st : DBState) (id2 : Nat) (t1 t2 : Nat) :
    (∀ sh ∈ st.shows, sh.id = id2 →
      { sh with current_episode := 99, status := "current", updated_at := t1 }
        ∈ (mark_caught_up id2 t1 st).shows) ∧
    mark_caught_up id2 t2 (mark_caught_up id2 t1 st) = mark_caught_up id2 t2 st ∧
    mark_caught_up id2 t1 (mark_caught_up id2 t1 st) = mark_caught_up id2 t1 st := by
  have hcomp : ∀ t1' t2', mark_caught_up id2 t2' (mark_caught_up id2 t1' st) =
      mark_caught_up id2 t2' st := by
    intro t1' t2'
    unfold mark_caught_up update_show
    simp only [List.map_map]
    congr 1
    apply map_congr_mem
    intro a _
    rcases a with ⟨i, ti, sv, stt, cs, ce, ts, eis, ad, pr, nt, tm, pu, sl, ca, ua⟩
    by_cases h : (i == id2) <;> simp [Function.comp, h]
  refine ⟨?_, hcomp t1 t2, hcomp t1 t1⟩
  intro sh hm hid
  have hbeq : (sh.id == id2) = true := by simp [hid]
  simp only [mark_caught_up, update_show]
  refine List.mem_map.mpr ⟨sh, hm, ?_⟩
  rw [if_pos hbeq]

/-- Claim C8 is refuted at this input: on an empty store, the next-episode and
start-next-season handlers do not surface a 404 for an absent show id - they
leave the store unchanged and answer with the normal 303 redirect. -/
theorem missing_id_counterexample :
    get_show emptyDB 7 = none ∧
    next_episode 7 0 emptyDB = (emptyDB, ApiResult.redirect) ∧
    mark_active 7 0 emptyDB = (emptyDB, ApiResult.redirect) ∧
    ApiResult.redirect ≠ ApiResult.notFound := by decide

/-- Claim C8 amended: when the referenced show id is absent, `GET
/api/shows/{id}` raises 404, but the next-episode and start-next-season form
handlers silently no-op (state unchanged) and redirect. -/
theorem missing_show_endpoints (st : DBState) (id2 now : Nat)
    (h : get_show st id2 = none) :
    api_get_show st id2 = ApiResult.notFound ∧
    next_episode id2 now st = (st, ApiResult.redirect) ∧
    mark_active id2 now st = (st, ApiResult.redirect) := by
  unfold api_get_show next_episode mark_active
  rw [h]
  exact ⟨rfl, rfl, rfl⟩

/-- Claim C8 (amended) witness at a concrete input. -/
theorem missing_show_endpoints_witness :
    api_get_show emptyDB 3 = ApiResult.notFound ∧
    next_episode 3 0 emptyDB = (emptyDB, ApiResult.redirect) ∧
    mark_active 3 0 emptyDB = (emptyDB, ApiResult.redirect) :=
  missing_show_endpoints emptyDB 3 0 (by decide)

theorem fetch_all_step_preserve (now : Nat) (se : String → Option TraktInfo)
    (de : String → Option TraktDetails) (sh : Show) (st : DBState) (i : Nat)
    (h : truthyStr sh.air_day = true ∨ sh.id ≠ i) :
    get_show (fetch_all_step now se de sh st) i = get_show st i := by
  unfold fetch_all_step
  by_cases ht : truthyStr sh.air_day
  · simp [ht]
  · have hne : sh.id ≠ i := by
      rcases h with h | h
      · exact absurd h ht
      · exact h
    simp only [ht, Bool.false_eq_true, if_false, ite_false]
    cases hse : se sh.title with
    | none => rfl
    | some info =>
      dsimp only
      cases hslug : info.trakt_slug with
      | none => rfl
      | some slug =>
        dsimp only
        by_cases hempty : slug == ""
        · simp [hempty]
        · simp only [hempty, Bool.false_eq_true, if_false, ite_false]
          cases hde : de slug with
          | none => rfl
          | some details =>
            dsimp only
            by_cases hday : truthyStr details.air_day
            · simp only [hday, if_true, ite_true]
              apply get_show_update_ne
              · intro s; rfl
              · exact Ne.symm hne
            · simp [hday]

theorem fetch_all_go_preserve (now : Nat) (se : String → Option TraktInfo)
    (de : String → Option TraktDetails) (ll : List Show) (st : DBState) (i : Nat)
    (h : ∀ sh ∈ ll, truthyStr sh.air_day = true ∨ sh.id ≠ i) :
    get_show (fetch_all_go now se de ll st) i = get_show st i := by
  induction ll generalizing st with
  | nil => rfl
  | cons sh rest ih =>
    show get_show (fetch_all_go now se de rest (fetch_all_step now se de sh st)) i = get_show st i
    rw [ih (fetch_all_step now se de sh st) (fun x hx => h x (List.mem_cons_of_mem sh hx)),
      fetch_all_step_preserve now se de sh st i (h sh (List.mem_cons_self sh rest))]

theorem fetch_all_go_append (now : Nat) (se : String → Option TraktInfo)
    (de : String → Option TraktDetails) (l1 l2 : List Show) (st : DBState) :
    fetch_all_go now se de (l1 ++ l2) st =
      fetch_all_go now se de l2 (fetch_all_go now se de l1 st) := by
  induction l1 generalizing st with
  | nil => rfl
  | cons sh rest ih => simp [fetch_all_go, ih]

theorem fetch_all_step_self (now : Nat) (se : String → Option TraktInfo)
    (de : String → Option TraktDetails) (sh : Show) (st : DBState)
    (info : TraktInfo) (slug : String) (details : TraktDetails)
    (hday0 : truthyStr sh.air_day = false)
    (hse : se sh.title = some info) (hslug : info.trakt_slug = some slug)
    (hempty : (slug == "") = false) (hde : de slug = some details)
    (hday : truthyStr details.air_day = true) :
    fetch_all_step now se de sh st =
      update_show now sh.id (fun s =>
        { s with trakt_slug := some slug, air_day := details.air_day }) st := by
  simp only [fetch_all_step, hday0, Bool.false_eq_true, if_false, ite_false, hse, hslug,
    hempty, hde, hday, if_true, ite_true]

theorem fetch_trakt_for_show_update (now : Nat) (se : String → Option TraktInfo)
    (de : String → Option TraktDetails) (show_id : Nat) (st : DBState) (sh : Show)
    (info : TraktInfo) (slug : String) (details : TraktDetails)
    (hfind : get_show st show_id = some sh)
    (hse : se sh.title = some info) (hslug : info.trakt_slug = some slug)
    (hempty : (slug == "") = false) (hde : de slug = some details) :
    fetch_trakt_for_show now se de show_id st =
      if truthyStr details.air_day then
        update_show now show_id (fun s =>
          { s with trakt_slug := some slug, air_day := details.air_day }) st
      else
        update_show now show_id (fun s => { s with trakt_slug := some slug }) st := by
  simp only [fetch_trakt_for_show, hfind, hse, hslug, hempty, Bool.false_eq_true, if_false,
    ite_false, hde]

/-- Claim C2 is refuted at this input: the per-show enrichment fetch overwrites
a non-null `air_day`.  The stored show has `air_day = 'Monday'`; after
`fetch_trakt_for_show` with a provider returning `air_day = 'Thursday'`, the
row holds `'Thursday'`. -/
theorem merge_overwrites_counterexample :
    (get_show sampleDB 1).map Show.air_day = some (some "Monday") ∧
    (get_show (fetch_trakt_for_show 4 oracleSearch oracleDetails 1 sampleDB) 1).map
        Show.air_day = some (some "Thursday") := by decide

/-- Claim C2 amended: the bulk refresh (`fetch_all_trakt`) iterates only the
`get_all_shows()` snapshot (dropped rows are excluded and provably untouched)
and only processes snapshot shows whose `air_day` is unset (null or empty),
so it never overwrites a set `air_day` - such rows are untouched - and it
does write the fetched air day (with the slug) when a non-dropped show's
`air_day` is unset and the provider chain yields a slug and a non-empty air
day.  The per-show fetch (`fetch_trakt_for_show`), by contrast, overwrites
`air_day` with any non-empty fetched value regardless of the show's current
`air_day` (and leaves `air_day` unchanged only when the fetched air day is
null or empty).  Show ids are assumed unique, as the store's primary key
guarantees. -/
theorem merge_enrichment_spec (now : Nat) (se : String → Option TraktInfo)
    (de : String → Option TraktDetails) (st : DBState)
    (hnd : (st.shows.map Show.id).Nodup) (sh : Show) (hm : sh ∈ st.shows) :
    (truthyStr sh.air_day = true →
      get_show (fetch_all_trakt now se de st) sh.id = some sh) ∧
    (sh.status = "dropped" →
      get_show (fetch_all_trakt now se de st) sh.id = some sh) ∧
    (∀ info slug details, truthyStr sh.air_day = false → sh.status ≠ "dropped" →
      se sh.title = some info → info.trakt_slug = some slug → (slug == "") = false →
      de slug = some details → truthyStr details.air_day = true →
      get_show (fetch_all_trakt now se de st) sh.id =
        some { sh with
          trakt_slug := some slug,
          air_day := details.air_day,
          updated_at := now }) ∧
    (∀ info slug details,
      se sh.title = some info → info.trakt_slug = some slug → (slug == "") = false →
      de slug = some details → truthyStr details.air_day = true →
      get_show (fetch_trakt_for_show now se de sh.id st) sh.id =
        some { sh with
          trakt_slug := some slug,
          air_day := details.air_day,
          updated_at := now }) ∧
    (∀ info slug details,
      se sh.title = some info → info.trakt_slug = some slug → (slug == "") = false →
      de slug = some details → truthyStr details.air_day = false →
      get_show (fetch_trakt_for_show now se de sh.id st) sh.id =
        some { sh with
          trakt_slug := some slug,
          updated_at := now }) := by
  have hfind : get_show st sh.id = some sh := get_show_of_mem_nodup hnd hm
  refine ⟨?_, ?_, ?_, ?_, ?_⟩
  · intro htruthy
    rw [fetch_all_trakt, fetch_all_go_preserve now se de (get_all_shows st) st sh.id ?_, hfind]
    intro x hx
    have hx' : x ∈ st.shows := (List.mem_filter.mp hx).1
    by_cases hxi : x.id = sh.id
    · left
      rw [List.inj_on_of_nodup_map hnd hx' hm hxi]
      exact htruthy
    · right; exact hxi
  · intro hdrop
    rw [fetch_all_trakt, fetch_all_go_preserve now se de (get_all_shows st) st sh.id ?_, hfind]
    intro x hx
    rcases List.mem_filter.mp hx with ⟨hx', hxnd⟩
    right
    intro hxi
    rw [List.inj_on_of_nodup_map hnd hx' hm hxi, hdrop] at hxnd
    simp at hxnd
  · intro info slug details hday0 hdrop hse hslug hempty hde hday
    have hsnap : sh ∈ get_all_shows st := List.mem_filter.mpr ⟨hm, by simp [hdrop]⟩
    have hnds : ((get_all_shows st).map Show.id).Nodup :=
      hnd.sublist ((List.filter_sublist st.shows).map Show.id)
    rcases List.append_of_mem hsnap with ⟨l1, l2, hsplit⟩
    have hnd' := hnds
    rw [hsplit, List.map_append, List.map_cons] at hnd'
    rcases List.nodup_append.mp hnd' with ⟨hnd1, hnd2, hdisj⟩
    have hid_l1 : ∀ x ∈ l1, x.id ≠ sh.id := by
      intro x hx he
      exact (hdisj (List.mem_map_of_mem Show.id hx)) (he ▸ List.mem_cons_self sh.id _)
    have hid_l2 : ∀ x ∈ l2, x.id ≠ sh.id := by
      intro x hx he
      exact (List.nodup_cons.mp hnd2).1 (he ▸ List.mem_map_of_mem Show.id hx)
    rw [fetch_all_trakt]
    conv in fetch_all_go now se de (get_all_shows st) st => rw [hsplit]
    rw [fetch_all_go_append, show (sh :: l2) = [sh] ++ l2 from rfl, fetch_all_go_append]
    rw [fetch_all_go_preserve now se de l2 _ sh.id
      (fun x hx => Or.inr (hid_l2 x hx))]
    show get_show (fetch_all_go now se de [sh] (fetch_all_go now se de l1 st)) sh.id = _
    rw [show fetch_all_go now se de [sh] (fetch_all_go now se de l1 st) =
      fetch_all_step now se de sh (fetch_all_go now se de l1 st) from rfl]
    rw [fetch_all_step_self now se de sh _ info slug details hday0 hse hslug hempty hde hday]
    rw [get_show_update_self now sh.id (fun s =>
      { s with trakt_slug := some slug, air_day := details.air_day }) (fun s => rfl) _]
    rw [fetch_all_go_preserve now se de l1 st sh.id (fun x hx => Or.inr (hid_l1 x hx)), hfind]
    rfl
  · intro info slug details hse hslug hempty hde hday
    rw [fetch_trakt_for_show_update now se de sh.id st sh info slug details hfind hse hslug
      hempty hde, if_pos hday]
    rw [get_show_update_self now sh.id (fun s =>
      { s with trakt_slug := some slug, air_day := details.air_day }) (fun s => rfl) st, hfind]
    rfl
  · intro info slug details hse hslug hempty hde hday
    rw [fetch_trakt_for_show_update now se de sh.id st sh info slug details hfind hse hslug
      hempty hde, if_neg (by simp [hday]), get_show_update_self now sh.id
      (fun s => { s with trakt_slug := some slug }) (fun s => rfl) st, hfind]
    rfl

/-- Claim C2 (amended) witness at a concrete input: the per-show overwrite
conjunct applied to the one-show database. -/
theorem merge_enrichment_spec_witness :
    get_show (fetch_trakt_for_show 4 oracleSearch oracleDetails
        (mkShow 1 "Annika" (some "Monday") 1 "watching" 1 2).id sampleDB)
      (mkShow 1 "Annika" (some "Monday") 1 "watching" 1 2).id =
      some { mkShow 1 "Annika" (some "Monday") 1 "watching" 1 2 with
        trakt_slug := some "annika",
        air_day := some "Thursday",
        updated_at := 4 } := by
  have h := merge_enrichment_spec 4 oracleSearch oracleDetails sampleDB (by decide)
    (mkShow 1 "Annika" (some "Monday") 1 "watching" 1 2) (by decide)
  exact h.2.2.2.1 { trakt_slug := some "annika" } "annika" { air_day := some "Thursday" }
    rfl rfl (by decide) rfl (by decide)

theorem rec_loop_eq (titles slugs : List String) (l : List Candidate) :
    ∀ acc, acc.length < 6 →
      rec_loop titles slugs l acc =
        acc ++ (l.filter (rec_eligible titles slugs)).take (6 - acc.length) := by
  induction l with
  | nil => intro acc _; simp [rec_loop]
  | cons c rest ih =>
    intro acc hlen
    rw [rec_loop]
    by_cases he : rec_eligible titles slugs c
    · rw [if_pos he]
      by_cases hfull : (acc ++ [c]).length ≥ 6
      · rw [if_pos hfull]
        have h5 : acc.length = 5 := by
          rw [List.length_append, List.length_singleton] at hfull
          omega
        have h1 : 6 - acc.length = 1 := by omega
        rw [List.filter_cons_of_pos he, h1, List.take_succ_cons, List.take_zero]
      · rw [if_neg hfull]
        have hlt : (acc ++ [c]).length < 6 := by omega
        rw [ih (acc ++ [c]) hlt, List.filter_cons_of_pos he]
        have hsucc : 6 - acc.length = (6 - (acc ++ [c]).length) + 1 := by
          rw [List.length_append, List.length_singleton]
          omega
        rw [hsucc, List.take_succ_cons, List.append_assoc, List.singleton_append]
    · rw [if_neg he, ih acc hlen, List.filter_cons_of_neg he]

theorem get_recommendations_eq (shows : List Show) (dismissed : List String)
    (popular : List Candidate) :
    get_recommendations shows dismissed popular =
      (popular.filter (rec_eligible (current_titles shows) dismissed)).take 6 := by
  rw [get_recommendations, rec_loop_eq (current_titles shows) dismissed popular [] (by simp)]
  simp

/-- Claim C6: the recommendation filter keeps a candidate only if its
lowercased title differs from every current show's lowercased title and its
slug is not in the dismissed set; candidates are consumed in provider order
(the output is the 6-prefix of the order-preserving filter) and at most 6 are
returned. -/
theorem get_recommendations_spec (shows : List Show) (dismissed : List String)
    (popular : List Candidate) :
    get_recommendations shows dismissed popular =
      (popular.filter (rec_eligible (current_titles shows) dismissed)).take 6 ∧
    (get_recommendations shows dismissed popular).length ≤ 6 ∧
    ∀ c ∈ get_recommendations shows dismissed popular,
      c ∈ popular ∧
      (∀ s ∈ shows, str_lower c.title ≠ str_lower s.title) ∧
      (∀ d ∈ dismissed, c.trakt_slug ≠ some d) := by
  refine ⟨get_recommendations_eq shows dismissed popular, ?_, ?_⟩
  · rw [get_recommendations_eq]
    exact List.length_take_le 6 _
  · intro c hc
    rw [get_recommendations_eq] at hc
    rcases List.mem_filter.mp (List.mem_of_mem_take hc) with ⟨hcp, helig⟩
    simp only [rec_eligible, Bool.and_eq_true, Bool.not_eq_true'] at helig
    obtain ⟨ht, hs⟩ := helig
    refine ⟨hcp, ?_, ?_⟩
    · intro s hsm heq
      have hmem : str_lower c.title ∈ current_titles shows := by
        rw [heq]
        exact List.mem_map_of_mem _ hsm
      rw [show (current_titles shows).contains (str_lower c.title) =
        ((str_lower c.title) ∈ current_titles shows : Bool) from by simp] at ht
      simp [hmem] at ht
    · intro d hd heq
      rw [heq] at hs
      simp only [slug_dismissed] at hs
      rw [show (dismissed.contains d) = ((d ∈ dismissed : Bool)) from by simp] at hs
      simp [hd] at hs

/-- Claim C10: adding a show from a recommendation also dismisses the
recommendation's slug: afterwards the slug is in the dismissed set, and no
candidate carrying that slug can appear in any later recommendation result
computed from the new state. -/
theorem add_recommendation_dismisses (now : Nat) (title slug service : String)
    (priority : Int) (pu fa : Option String) (st : DBState) :
    slug ∈ (add_recommendation now title slug service priority pu fa st).dismissed ∧
    ∀ popular c,
      c ∈ get_recommendations
            (add_recommendation now title slug service priority pu fa st).shows
            (add_recommendation now title slug service priority pu fa st).dismissed popular →
      c.trakt_slug ≠ some slug := by
  have hmem : slug ∈ (add_recommendation now title slug service priority pu fa st).dismissed := by
    rw [add_recommendation, dismiss_recommendation]
    by_cases h : (add_show now title service 1 1 fa priority none "watching"
        none none none pu st).dismissed.contains slug
    · rw [if_pos h]
      have := h
      rw [show ((add_show now title service 1 1 fa priority none "watching"
          none none none pu st).dismissed.contains slug) =
        ((slug ∈ (add_show now title service 1 1 fa priority none "watching"
          none none none pu st).dismissed : Bool)) from by simp] at this
      simpa using this
    · rw [if_neg h]
      simp
  refine ⟨hmem, ?_⟩
  intro popular c hc heq
  rw [get_recommendations_eq] at hc
  rcases List.mem_filter.mp (List.mem_of_mem_take hc) with ⟨_, helig⟩
  simp only [rec_eligible, Bool.and_eq_true, Bool.not_eq_true'] at helig
  obtain ⟨_, hs⟩ := helig
  rw [heq] at hs
  simp only [slug_dismissed] at hs
  rw [show ((add_recommendation now title slug service priority pu fa st).dismissed.contains
      slug) = ((slug ∈ (add_recommendation now title slug service priority pu fa
      st).dismissed : Bool)) from by simp] at hs
  simp [hmem] at hs
